import Mathlib

/-!
Shallow embedding of `coldatoms/particles.py`: the `Ensemble` particle
container, `produce_ptcls` injection driver, `Sink`/`SinkPlane` absorption
times and the `drift_kick` integrator.  Machine floats are embedded as exact
rationals; numpy arrays of 3-vectors are lists of rational triples, and
generic numpy nd-arrays are a shape together with the flat (C-order) data.
-/

set_option linter.unusedVariables false

/-- A row of a numpy `(N, 3)` float array: one particle's position,
velocity or force vector. -/
abbrev Vec3 : Type := ℚ × ℚ × ℚ

/-- `a.dot(b)` for 3-vectors. -/
def dot (a b : Vec3) : ℚ :=
  a.1 * b.1 + a.2.1 * b.2.1 + a.2.2 * b.2.2

/-- A generic numpy nd-array of floats: its shape and its flat data in
C (row-major) order.  Used for the arrays stored in `particle_properties`. -/
structure NpArray where
  shape : List ℕ
  data : List ℚ
deriving DecidableEq

/-- In-place `ndarray.resize(newShape)`: the flat data keeps its prefix and
missing entries are filled with zeros. -/
def NpArray.resize (a : NpArray) (newShape : List ℕ) : NpArray :=
  { shape := newShape,
    data := a.data.take newShape.prod
      ++ List.replicate (newShape.prod - a.data.length) 0 }

/-- The `Ensemble` class: positions `x`, velocities `v` (numpy `(N,3)`
arrays), and the two property dictionaries.  Ensemble properties used by the
core are scalars (the uniform mass); particle properties are nd-arrays. -/
structure Ensemble where
  x : List Vec3
  v : List Vec3
  ensemble_properties : List (String × ℚ)
  particle_properties : List (String × NpArray)
deriving DecidableEq

/-- `Ensemble.num_ptcls`, i.e. `self.x.shape[0]`. -/
def Ensemble.numPtcls (e : Ensemble) : ℕ := e.x.length

/-- `np.ndarray.resize([n, 3])` acting on an `(N, 3)` array of rows: the
flat prefix (whole leading rows) is kept and new rows are zero-filled. -/
def resizeRows (n : ℕ) (rows : List Vec3) : List Vec3 :=
  rows.take n ++ List.replicate (n - rows.length) (0, 0, 0)

/-- `Ensemble.resize(new_size)`.  For `x` and `v` the shape `[N, 3]` has its
leading entry replaced by `new_size`.  For each particle-property array the
Python code builds `shape = [arr.shape]` (a one-element list holding the
shape tuple) and then assigns `shape[0] = new_size`, so the list collapses
to `[new_size]` and the array is resized to the 1-D shape `[new_size]`. -/
def Ensemble.resize (e : Ensemble) (new_size : ℕ) : Ensemble :=
  { e with
    x := resizeRows new_size e.x,
    v := resizeRows new_size e.v,
    particle_properties :=
      e.particle_properties.map fun kv => (kv.1, kv.2.resize [new_size]) }

/-- The error raised by `set_particle_property` when the leading dimension
of the property array does not match `num_ptcls`. -/
inductive DimensionMismatch where
  | mk
deriving DecidableEq

/-- The base `Sink.find_absorption_time`: `np.full(x.shape[0], 2.0 * dt)`. -/
def Sink.findAbsorptionTime (x v : List Vec3) (dt : ℚ) : List ℚ :=
  List.replicate x.length (2 * dt)

/-- `SinkPlane`: a sink absorbing particles that hit the plane through
`point` with normal `normal`. -/
structure SinkPlane where
  point : Vec3
  normal : Vec3

/-- `SinkPlane.find_absorption_time`: per particle `i`, if
`normal.dot(v[i]) == 0` the sentinel `2*dt`, otherwise
`normal.dot(point - x[i]) / normal.dot(v[i])`. -/
def SinkPlane.findAbsorptionTime (s : SinkPlane) (x v : List Vec3) (dt : ℚ) :
    List ℚ :=
  (List.range x.length).map fun i =>
    let xi := x.getD i (0, 0, 0)
    let vi := v.getD i (0, 0, 0)
    let normal_velocity := dot s.normal vi
    if normal_velocity = 0 then 2 * dt
    else dot s.normal (s.point - xi) / normal_velocity

/-- A force contribution: a callable taking the ensemble and returning the
per-particle force array. -/
abbrev Force : Type := Ensemble → List Vec3

/-- The `RuntimeError` raised by `drift_kick` when no mass property is
found. -/
inductive DriftKickError where
  | missingMass
deriving DecidableEq

/-- The value bound to `m` in `drift_kick`: either the scalar from
`ensemble_properties['mass']` or the per-particle array from
`particle_properties['mass']`. -/
inductive MassVal where
  | scalar (m : ℚ)
  | array (a : NpArray)
deriving DecidableEq

/-- The mass-lookup chain of `drift_kick`: `ensemble_properties['mass']`
first, then `particle_properties['mass']`, else the error case. -/
def resolveMass (e : Ensemble) : Option MassVal :=
  match List.lookup "mass" e.ensemble_properties with
  | some m => some (MassVal.scalar m)
  | none =>
    match List.lookup "mass" e.particle_properties with
    | some a => some (MassVal.array a)
    | none => none

/-- The mass dividing particle `i`'s accumulated force in the kick
`v += (dt / m) * f`: the scalar itself, or entry `i` of a per-particle
mass array. -/
def massAt (mv : MassVal) (i : ℕ) : ℚ :=
  match mv with
  | MassVal.scalar m => m
  | MassVal.array a => a.data.getD i 0

/-- The kick `ensemble.v += (dt / m) * f`, elementwise over the velocity
rows and the accumulated force rows. -/
def kick (dt : ℚ) (mv : MassVal) : ℕ → List Vec3 → List Vec3 → List Vec3
  | _, [], _ => []
  | _, _, [] => []
  | i, vi :: vs, fi :: fs =>
      (vi + (dt / massAt mv i) • fi) :: kick dt mv (i + 1) vs fs

/-- `drift_kick(dt, ensemble, forces)`.  Returns the ensemble as mutated by
the call together with the error, if any, that the call raised; on the
missing-mass error the first position half-drift has already been applied,
exactly as in the Python, where the exception escapes after
`ensemble.x += 0.5 * dt * ensemble.v`. -/
def driftKick (dt : ℚ) (e : Ensemble) (forces : List Force) :
    Ensemble × Option DriftKickError :=
  match forces with
  | [] =>
      ({ e with x := List.zipWith (fun xi vi => xi + dt • vi) e.x e.v }, none)
  | _ =>
      let e1 : Ensemble :=
        { e with
          x := List.zipWith (fun xi vi => xi + (1/2 * dt) • vi) e.x e.v }
      let f : List Vec3 :=
        forces.foldl (fun acc force => List.zipWith (· + ·) acc (force e1))
          (List.replicate e1.v.length (0 : Vec3))
      match resolveMass e1 with
      | none => (e1, some DriftKickError.missingMass)
      | some mv =>
          let v2 := kick dt mv 0 e1.v f
          ({ e1 with
              v := v2,
              x := List.zipWith (fun xi vi => xi + (1/2 * dt) • vi) e1.x v2 },
            none)

example :
    (driftKick 2 ⟨[(0,0,0)], [(1,0,0)], [("mass", 1)], []⟩
      [fun _ => [(1,0,0)]]).1.v = [(3,0,0)] := by
  norm_num [driftKick, kick, massAt, resolveMass, Prod.ext_iff, Prod.smul_def]

example :
    (SinkPlane.findAbsorptionTime ⟨(1,0,0), (1,0,0)⟩
      [(0,0,0), (0,0,0)] [(1,0,0), (0,1,0)] 10) = [1, 20] := by
  norm_num [SinkPlane.findAbsorptionTime, dot, List.range_succ, Prod.ext_iff]

/-! ### Helper lemmas -/

lemma zipWith_zipWith_map {α β γ δ ε : Type} (ψ : γ → δ → ε) (χ : α → β → γ)
    (φ : β → δ) :
    ∀ (x : List α) (v : List β),
      List.zipWith ψ (List.zipWith χ x v) (v.map φ) =
        List.zipWith (fun a b => ψ (χ a b) (φ b)) x v
  | [], _ => by simp
  | _ :: _, [] => by simp
  | a :: x, b :: v => by
      simp [zipWith_zipWith_map ψ χ φ x v]

lemma kick_scalar (dt m : ℚ) (F : Vec3) :
    ∀ (i : ℕ) (vs : List Vec3),
      kick dt (MassVal.scalar m) i vs (List.replicate vs.length F) =
        vs.map (fun vi => vi + (dt / m) • F)
  | _, [] => rfl
  | i, vi :: vs => by
      simp [kick, List.replicate_succ, massAt, kick_scalar dt m F (i + 1) vs]

lemma zipWith_add_replicate_zero :
    ∀ (n : ℕ) (l : List Vec3),
      List.zipWith (· + ·) (List.replicate n (0 : Vec3)) l = l.take n
  | 0, _ => by simp
  | _ + 1, [] => by simp
  | n + 1, b :: l => by
      simp [List.replicate_succ, zipWith_add_replicate_zero n l]

/-- Pointwise description of `SinkPlane.find_absorption_time`: entry `i`
follows the guarded ratio formula, out-of-range indices do not exist. -/
lemma sinkPlane_tau_getElem (s : SinkPlane) (x v : List Vec3) (dt : ℚ)
    (i : ℕ) :
    (s.findAbsorptionTime x v dt)[i]? =
      if i < x.length then
        some (if dot s.normal (v.getD i (0, 0, 0)) = 0 then 2 * dt
          else dot s.normal (s.point - x.getD i (0, 0, 0)) /
            dot s.normal (v.getD i (0, 0, 0)))
      else none := by
  by_cases hi : i < x.length
  · simp only [SinkPlane.findAbsorptionTime, List.getElem?_map,
      List.getElem?_range hi, if_pos hi]
    rfl
  · rw [if_neg hi]
    refine List.getElem?_eq_none ?_
    simp only [SinkPlane.findAbsorptionTime, List.length_map,
      List.length_range]
    omega

/-- `dot` is linear in its second argument along a trajectory. -/
lemma dot_traj (n a b p : Vec3) (t : ℚ) :
    dot n (a + t • b - p) = dot n a + t * dot n b - dot n p := by
  simp only [dot, Prod.fst_add, Prod.snd_add, Prod.fst_sub, Prod.snd_sub,
    Prod.smul_fst, Prod.smul_snd, smul_eq_mul]
  ring

/-! ### Claims about `drift_kick` -/

/-- **C8**: with an empty force list, `drift_kick(dt, ensemble, [])` sets
the positions to `positions + dt * velocities` and leaves the velocities and
both property maps unchanged, raising no error. -/
theorem driftKick_no_forces (dt : ℚ) (e : Ensemble) :
    (driftKick dt e []).2 = none ∧
    (driftKick dt e []).1.x = List.zipWith (fun xi vi => xi + dt • vi) e.x e.v ∧
    (driftKick dt e []).1.v = e.v ∧
    (driftKick dt e []).1.ensemble_properties = e.ensemble_properties ∧
    (driftKick dt e []).1.particle_properties = e.particle_properties :=
  ⟨rfl, rfl, rfl, rfl, rfl⟩

/-- **C1**: with a uniform mass stored in `ensemble_properties['mass']` and a
single force contribution that returns the same vector `F` for every
particle, one `drift_kick` step realises the closed-form kinematics
`v' = v + (dt/m) F` and `x' = x + dt v + (1/2)(dt²/m) F`. -/
theorem driftKick_uniform_force_closed_form
    (dt m : ℚ) (F : Vec3) (e : Ensemble) (force : Force)
    (hm : List.lookup "mass" e.ensemble_properties = some m)
    (hf : ∀ ens : Ensemble, force ens = List.replicate ens.x.length F)
    (hlen : e.v.length = e.x.length) :
    (driftKick dt e [force]).2 = none ∧
    (driftKick dt e [force]).1.v = e.v.map (fun vi => vi + (dt / m) • F) ∧
    (driftKick dt e [force]).1.x =
      List.zipWith (fun xi vi => xi + dt • vi + ((1/2) * (dt * dt / m)) • F)
        e.x e.v := by
  have hres :
      resolveMass { e with
        x := List.zipWith (fun xi vi => xi + (1/2 * dt) • vi) e.x e.v } =
      some (MassVal.scalar m) := by
    simp [resolveMass, hm]
  have hflist :
      List.zipWith (· + ·)
        (List.replicate
          (Ensemble.v { e with
            x := List.zipWith (fun xi vi => xi + (1/2 * dt) • vi) e.x e.v
            }).length (0 : Vec3))
        (force { e with
          x := List.zipWith (fun xi vi => xi + (1/2 * dt) • vi) e.x e.v }) =
      List.replicate e.v.length F := by
    rw [hf, zipWith_add_replicate_zero]
    simp [hlen, min_self]
  simp only [driftKick, List.foldl, hres, hflist]
  have hkick := kick_scalar dt m F 0 e.v
  refine ⟨trivial, hkick, ?_⟩
  rw [hkick, zipWith_zipWith_map]
  have hfun :
      (fun (a b : Vec3) =>
          a + (1/2 * dt) • b + (1/2 * dt) • (b + (dt / m) • F)) =
      (fun (a b : Vec3) => a + dt • b + ((1/2) * (dt * dt / m)) • F) := by
    funext a b
    module
  rw [hfun]

/-- Witness for `driftKick_uniform_force_closed_form` at a concrete input:
one particle, `dt = 2`, `m = 1`, constant force `(1,0,0)`. -/
theorem driftKick_uniform_force_closed_form_witness :
    (driftKick 2 ⟨[(0,0,0)], [(1,0,0)], [("mass", 1)], []⟩
        [fun ens => List.replicate ens.x.length ((1:ℚ),(0:ℚ),(0:ℚ))]).1.v =
      ([(1,0,0)] : List Vec3).map
        (fun vi => vi + ((2:ℚ) / 1) • ((1:ℚ),(0:ℚ),(0:ℚ))) :=
  (driftKick_uniform_force_closed_form 2 1 ((1:ℚ),(0:ℚ),(0:ℚ))
    ⟨[(0,0,0)], [(1,0,0)], [("mass", 1)], []⟩
    (fun ens => List.replicate ens.x.length ((1:ℚ),(0:ℚ),(0:ℚ)))
    (by simp) (fun _ => rfl) (by simp)).2.1

/-! ### Claims about sinks -/

/-- **C2**: `SinkPlane.find_absorption_time` returns, per particle,
`normal · (point - x_i) / (normal · v_i)` when `normal · v_i ≠ 0` and the
sentinel `2*dt` when `normal · v_i = 0` (no division by zero is performed);
with `point = (1,0,0)`, `normal = (1,0,0)` and `dt = 10`, a particle at the
origin with `v = (1,0,0)` gets time `1` and one with `v = (0,1,0)` gets
`20`. -/
theorem sinkPlane_absorptionTime_formula :
    (∀ (s : SinkPlane) (x v : List Vec3) (dt : ℚ) (i : ℕ),
      (s.findAbsorptionTime x v dt)[i]? =
        if i < x.length then
          some (if dot s.normal (v.getD i (0, 0, 0)) = 0 then 2 * dt
            else dot s.normal (s.point - x.getD i (0, 0, 0)) /
              dot s.normal (v.getD i (0, 0, 0)))
        else none) ∧
    SinkPlane.findAbsorptionTime ⟨(1,0,0), (1,0,0)⟩ [(0,0,0)] [(1,0,0)] 10
      = [1] ∧
    SinkPlane.findAbsorptionTime ⟨(1,0,0), (1,0,0)⟩ [(0,0,0)] [(0,1,0)] 10
      = [20] := by
  refine ⟨sinkPlane_tau_getElem, ?_, ?_⟩
  · norm_num [SinkPlane.findAbsorptionTime, dot, List.range_succ]
  · norm_num [SinkPlane.findAbsorptionTime, dot, List.range_succ]

/-- **C10**: the base `Sink.find_absorption_time` returns one entry per
particle, every entry being `2*dt`; hence for `dt > 0` every returned time
exceeds `dt`, so a default sink never reports an absorption within
`[0, dt)`. -/
theorem sink_default_absorptionTime :
    (∀ (x v : List Vec3) (dt : ℚ),
      (Sink.findAbsorptionTime x v dt).length = x.length) ∧
    (∀ (x v : List Vec3) (dt : ℚ) (i : ℕ),
      (Sink.findAbsorptionTime x v dt)[i]? =
        if i < x.length then some (2 * dt) else none) ∧
    (∀ (x v : List Vec3) (dt : ℚ), 0 < dt →
      ∀ τ ∈ Sink.findAbsorptionTime x v dt, dt < τ) := by
  refine ⟨fun x v dt => by simp [Sink.findAbsorptionTime],
    fun x v dt i => by simp [Sink.findAbsorptionTime, List.getElem?_replicate],
    fun x v dt hdt τ hτ => ?_⟩
  have hτ2 : τ = 2 * dt := List.eq_of_mem_replicate hτ
  rw [hτ2]
  linarith

/-- Witness for `sink_default_absorptionTime`: with `dt = 1` the single
returned time `2 * 1` exceeds `1`. -/
theorem sink_default_absorptionTime_witness : (1 : ℚ) < 2 * 1 :=
  sink_default_absorptionTime.2.2 [(0, 0, 0)] [] 1 (by norm_num) (2 * 1)
    (by simp [Sink.findAbsorptionTime])

/-- **C6 counterexample**: for the plane through `(1,0,0)` with normal
`(1,0,0)`, the particle at `(2,0,0)` with velocity `(1,0,0)` and `dt = 10`
never crosses the plane during `[0, 10)` (the dot product along the
trajectory stays nonzero), yet the returned absorption time is `-1`, which
is not strictly greater than `dt`. -/
theorem sinkPlane_sentinel_counterexample :
    (SinkPlane.findAbsorptionTime ⟨(1,0,0), (1,0,0)⟩ [(2,0,0)] [(1,0,0)]
        10).getD 0 0 = -1 ∧
    (∀ t : ℚ, 0 ≤ t → t < 10 →
      dot ((1:ℚ), (0:ℚ), (0:ℚ))
        (((2:ℚ), (0:ℚ), (0:ℚ)) + t • (((1:ℚ), (0:ℚ), (0:ℚ)) : Vec3)
          - ((1:ℚ), (0:ℚ), (0:ℚ))) ≠ 0) ∧
    ¬ (10 : ℚ) <
      (SinkPlane.findAbsorptionTime ⟨(1,0,0), (1,0,0)⟩ [(2,0,0)] [(1,0,0)]
        10).getD 0 0 := by
  have hval :
      (SinkPlane.findAbsorptionTime ⟨(1,0,0), (1,0,0)⟩ [(2,0,0)] [(1,0,0)]
        10).getD 0 0 = -1 := by
    norm_num [SinkPlane.findAbsorptionTime, dot, List.range_succ]
  refine ⟨hval, fun t h0 h1 => ?_, by rw [hval]; norm_num⟩
  simp only [dot, Prod.fst_add, Prod.snd_add, Prod.fst_sub, Prod.snd_sub,
    Prod.smul_fst, Prod.smul_snd, smul_eq_mul]
  intro hc
  norm_num at hc
  linarith

/-- **C6** (amended): whenever particle `i`'s rectilinear trajectory does
not cross the plane within `[0, dt)`, the absorption time that
`SinkPlane.find_absorption_time` returns for it lies outside `[0, dt)` —
it is never a false absorption report — though it can be negative or equal
to `dt` rather than strictly greater than `dt`. -/
theorem sinkPlane_no_false_absorption
    (s : SinkPlane) (x v : List Vec3) (dt : ℚ) (i : ℕ)
    (hi : i < x.length)
    (hno : ∀ t : ℚ, 0 ≤ t → t < dt →
      dot s.normal (x.getD i (0,0,0) + t • v.getD i (0,0,0) - s.point) ≠ 0) :
    ¬ (0 ≤ (s.findAbsorptionTime x v dt).getD i 0 ∧
        (s.findAbsorptionTime x v dt).getD i 0 < dt) := by
  have hget :
      (s.findAbsorptionTime x v dt).getD i 0 =
        if dot s.normal (v.getD i (0, 0, 0)) = 0 then 2 * dt
        else dot s.normal (s.point - x.getD i (0, 0, 0)) /
          dot s.normal (v.getD i (0, 0, 0)) := by
    rw [List.getD_eq_getElem?_getD, sinkPlane_tau_getElem, if_pos hi]
    rfl
  rw [hget]
  by_cases hnv : dot s.normal (v.getD i (0, 0, 0)) = 0
  · rw [if_pos hnv]
    rintro ⟨h0, h1⟩
    linarith
  · rw [if_neg hnv]
    rintro ⟨h0, h1⟩
    refine hno _ h0 h1 ?_
    rw [dot_traj, div_mul_cancel₀ _ hnv]
    have hsub : dot s.normal (s.point - x.getD i (0,0,0)) =
        dot s.normal s.point - dot s.normal (x.getD i (0,0,0)) := by
      simp only [dot, Prod.fst_sub, Prod.snd_sub]
      ring
    rw [hsub]
    ring

/-- Witness for `sinkPlane_no_false_absorption`: a particle moving parallel
to the plane never crosses it, and its sentinel `2 * dt = 20` is indeed not
in `[0, 10)`. -/
theorem sinkPlane_no_false_absorption_witness :
    ¬ (0 ≤ (SinkPlane.findAbsorptionTime ⟨(1,0,0), (1,0,0)⟩ [(0,0,0)]
          [(0,1,0)] 10).getD 0 0 ∧
        (SinkPlane.findAbsorptionTime ⟨(1,0,0), (1,0,0)⟩ [(0,0,0)]
          [(0,1,0)] 10).getD 0 0 < 10) :=
  sinkPlane_no_false_absorption ⟨(1,0,0), (1,0,0)⟩ [(0,0,0)] [(0,1,0)] 10 0
    (by norm_num)
    (by
      intro t h0 h1
      simp only [dot, Prod.fst_add, Prod.snd_add, Prod.fst_sub, Prod.snd_sub,
        Prod.smul_fst, Prod.smul_snd, smul_eq_mul]
      norm_num)

/-! ### Mass resolution (claim C3) -/

/-- **C3**: `drift_kick` resolves the kick mass from
`ensemble_properties['mass']` first (so an ensemble mass of `2` beats a
per-particle mass array of `5`s), falling back to
`particle_properties['mass']`, and raises the missing-mass error — with the
first position half-drift already applied — when neither key is present. -/
theorem driftKick_mass_resolution :
    (∀ (e : Ensemble) (m : ℚ),
      List.lookup "mass" e.ensemble_properties = some m →
      resolveMass e = some (MassVal.scalar m)) ∧
    (∀ (e : Ensemble) (a : NpArray),
      List.lookup "mass" e.ensemble_properties = none →
      List.lookup "mass" e.particle_properties = some a →
      resolveMass e = some (MassVal.array a)) ∧
    (∀ (dt : ℚ) (e : Ensemble) (g : Force) (gs : List Force),
      List.lookup "mass" e.ensemble_properties = none →
      List.lookup "mass" e.particle_properties = none →
      driftKick dt e (g :: gs) =
        ({ e with
            x := List.zipWith (fun xi vi => xi + (1/2 * dt) • vi) e.x e.v },
          some DriftKickError.missingMass)) ∧
    (driftKick 1 ⟨[(0,0,0)], [(0,0,0)], [("mass", 2)],
        [("mass", ⟨[1], [5]⟩)]⟩ [fun _ => [(1,0,0)]]).1.v
      = [(1/2, 0, 0)] ∧
    (driftKick 1 ⟨[(0,0,0)], [(0,0,0)], [],
        [("mass", ⟨[1], [5]⟩)]⟩ [fun _ => [(1,0,0)]]).1.v
      = [(1/5, 0, 0)] := by
  refine ⟨fun e m hm => by simp [resolveMass, hm],
    fun e a he hp => by simp [resolveMass, he, hp],
    fun dt e g gs he hp => by simp [driftKick, resolveMass, he, hp],
    ?_, ?_⟩
  · norm_num [driftKick, kick, massAt, resolveMass, Prod.ext_iff,
      Prod.smul_def]
  · norm_num [driftKick, kick, massAt, resolveMass, Prod.ext_iff,
      Prod.smul_def]

/-- Witness for `driftKick_mass_resolution`: concrete instances of the
three conditional clauses. -/
theorem driftKick_mass_resolution_witness :
    resolveMass ⟨[], [], [("mass", 3)], []⟩ = some (MassVal.scalar 3) ∧
    resolveMass ⟨[], [], [], [("mass", ⟨[2], [4, 4]⟩)]⟩
      = some (MassVal.array ⟨[2], [4, 4]⟩) ∧
    driftKick 2 ⟨[(1,0,0)], [(1,0,0)], [], []⟩ [fun _ => [(0,0,0)]]
      = ({ x := [(2,0,0)], v := [(1,0,0)], ensemble_properties := [],
            particle_properties := [] },
          some DriftKickError.missingMass) := by
  refine ⟨driftKick_mass_resolution.1 _ 3 rfl,
    driftKick_mass_resolution.2.1 _ _ rfl rfl, ?_⟩
  have h := driftKick_mass_resolution.2.2.1 2
    ⟨[(1,0,0)], [(1,0,0)], [], []⟩ (fun _ => [(0,0,0)]) [] rfl rfl
  rw [h]
  norm_num [Prod.ext_iff, Prod.smul_def]

/-! ### Resizing (claims C7, C5) -/

lemma resizeRows_zero (rows : List Vec3) : resizeRows 0 rows = [] := by
  simp [resizeRows]

lemma resizeRows_nil (n : ℕ) : resizeRows n [] = List.replicate n (0, 0, 0) := by
  simp [resizeRows]

lemma resizeRows_cons (n : ℕ) (r : Vec3) (rows : List Vec3) :
    resizeRows (n + 1) (r :: rows) = r :: resizeRows n rows := by
  simp [resizeRows]

lemma resizeRows_length (n : ℕ) (rows : List Vec3) :
    (resizeRows n rows).length = n := by
  simp only [resizeRows, List.length_append, List.length_take,
    List.length_replicate]
  omega

lemma resizeRows_getElem :
    ∀ (n : ℕ) (rows : List Vec3) (i : ℕ),
      (resizeRows n rows)[i]? =
        if i < n then
          (if i < rows.length then rows[i]? else some (0, 0, 0))
        else none
  | 0, rows, i => by simp [resizeRows_zero]
  | n + 1, [], i => by
      simp [resizeRows_nil, List.getElem?_replicate]
  | n + 1, r :: rows, 0 => by simp [resizeRows_cons]
  | n + 1, r :: rows, i + 1 => by
      simp only [resizeRows_cons, List.getElem?_cons_succ, List.length_cons,
        Nat.add_lt_add_iff_right]
      exact resizeRows_getElem n rows i

/-- **C7**: `resize` reallocates positions and velocities to `new_size`
rows, preserving the first `min(N, new_size)` rows and zero-filling newly
added rows; consequently `resize(N); resize(M); resize(N)` restores the
first `min(N, M)` rows of positions and velocities. -/
theorem resize_prefix_roundtrip
    (e : Ensemble) (hv : e.v.length = e.numPtcls) (n M i : ℕ) :
    ((e.resize n).x.length = n ∧ (e.resize n).v.length = n) ∧
    (i < min e.numPtcls n →
      (e.resize n).x[i]? = e.x[i]? ∧ (e.resize n).v[i]? = e.v[i]?) ∧
    (e.numPtcls ≤ i → i < n →
      (e.resize n).x[i]? = some (0,0,0) ∧ (e.resize n).v[i]? = some (0,0,0)) ∧
    (i < min e.numPtcls M →
      (((e.resize e.numPtcls).resize M).resize e.numPtcls).x[i]? = e.x[i]? ∧
      (((e.resize e.numPtcls).resize M).resize e.numPtcls).v[i]? = e.v[i]?) := by
  have hN : e.numPtcls = e.x.length := rfl
  refine ⟨⟨resizeRows_length n e.x, resizeRows_length n e.v⟩,
    fun hi => ?_, fun hNi hin => ?_, fun hi => ?_⟩
  · rw [hN] at hi
    constructor
    · rw [show (e.resize n).x = resizeRows n e.x from rfl, resizeRows_getElem,
        if_pos (by omega), if_pos (by omega)]
    · rw [show (e.resize n).v = resizeRows n e.v from rfl, resizeRows_getElem,
        if_pos (by omega), if_pos (by rw [hv, hN]; omega)]
  · rw [hN] at hNi
    constructor
    · rw [show (e.resize n).x = resizeRows n e.x from rfl, resizeRows_getElem,
        if_pos hin, if_neg (by omega)]
    · rw [show (e.resize n).v = resizeRows n e.v from rfl, resizeRows_getElem,
        if_pos hin, if_neg (by rw [hv, hN]; omega)]
  · rw [hN] at hi
    have hx3 : (((e.resize e.numPtcls).resize M).resize e.numPtcls).x =
        resizeRows e.numPtcls (resizeRows M (resizeRows e.numPtcls e.x)) := rfl
    have hv3 : (((e.resize e.numPtcls).resize M).resize e.numPtcls).v =
        resizeRows e.numPtcls (resizeRows M (resizeRows e.numPtcls e.v)) := rfl
    have l1 : (resizeRows e.numPtcls e.x).length = e.numPtcls :=
      resizeRows_length _ _
    have l2 : (resizeRows M (resizeRows e.numPtcls e.x)).length = M :=
      resizeRows_length _ _
    have l1v : (resizeRows e.numPtcls e.v).length = e.numPtcls :=
      resizeRows_length _ _
    have l2v : (resizeRows M (resizeRows e.numPtcls e.v)).length = M :=
      resizeRows_length _ _
    constructor
    · rw [hx3, resizeRows_getElem, if_pos (by omega),
        if_pos (by rw [l2]; omega),
        resizeRows_getElem, if_pos (by omega), if_pos (by rw [l1]; omega),
        resizeRows_getElem, if_pos (by omega), if_pos (by omega)]
    · rw [hv3, resizeRows_getElem, if_pos (by omega),
        if_pos (by rw [l2v]; omega),
        resizeRows_getElem, if_pos (by omega), if_pos (by rw [l1v]; omega),
        resizeRows_getElem, if_pos (by omega), if_pos (by omega)]

/-- Witness for `resize_prefix_roundtrip`: a one-particle ensemble grown to
three particles keeps row 0 and zero-fills row 2, and the grow-shrink-grow
round trip keeps row 0. -/
theorem resize_prefix_roundtrip_witness :
    ((Ensemble.resize ⟨[(5,6,7)], [(8,9,10)], [], []⟩ 3).x[0]?
        = [((5:ℚ),(6:ℚ),(7:ℚ))][0]? ∧
      (Ensemble.resize ⟨[(5,6,7)], [(8,9,10)], [], []⟩ 3).v[0]?
        = [((8:ℚ),(9:ℚ),(10:ℚ))][0]?) ∧
    ((Ensemble.resize ⟨[(5,6,7)], [(8,9,10)], [], []⟩ 3).x[2]?
        = some (0,0,0) ∧
      (Ensemble.resize ⟨[(5,6,7)], [(8,9,10)], [], []⟩ 3).v[2]?
        = some (0,0,0)) := by
  have h := resize_prefix_roundtrip ⟨[(5,6,7)], [(8,9,10)], [], []⟩ rfl 3 2 0
  have h2 := resize_prefix_roundtrip ⟨[(5,6,7)], [(8,9,10)], [], []⟩ rfl 3 2 2
  exact ⟨h.2.1 (by norm_num [Ensemble.numPtcls]),
    h2.2.2.1 (by norm_num [Ensemble.numPtcls]) (by norm_num)⟩

/-- **C5** (evaluating the resize code at the failing input): an ensemble
with one particle and a `(1, 2)`-shaped particle property, resized to three
particles, ends with that property reshaped to the 1-D shape `[3]` with flat
data `[10, 20, 0]` — not a `(3, 2)` array whose first row `[10, 20]` is
preserved. -/
theorem resize_flattens_particle_property :
    (Ensemble.resize ⟨[(0,0,0)], [(0,0,0)], [],
        [("q", ⟨[1, 2], [10, 20]⟩)]⟩ 3).particle_properties
      = [("q", ⟨[3], [10, 20, 0]⟩)] := rfl

/-! ### Copy semantics of `set_particle_property` (claim C9)

`np.copy` only matters when arrays are mutable references, so
`set_particle_property` is embedded against an explicit store of numpy
arrays addressed by reference. -/

/-- A heap of numpy arrays; a reference is an index into it. -/
structure Store where
  arrays : List NpArray
deriving DecidableEq

/-- Dereference (an out-of-range reference yields an empty array). -/
def Store.read (st : Store) (r : ℕ) : NpArray :=
  st.arrays.getD r ⟨[], []⟩

/-- In-place mutation of the array behind `r`. -/
def Store.write (st : Store) (r : ℕ) (a : NpArray) : Store :=
  ⟨st.arrays.set r a⟩

/-- Allocate a fresh array, returning its reference. -/
def Store.alloc (st : Store) (a : NpArray) : ℕ × Store :=
  (st.arrays.length, ⟨st.arrays ++ [a]⟩)

/-- An ensemble as seen by `set_particle_property`: the particle count and
the property dictionary, whose values are references into the store. -/
structure HEnsemble where
  num_ptcls : ℕ
  particle_properties : List (String × ℕ)
deriving DecidableEq

/-- Python dict assignment `d[key] = v`: replace the value of an existing
key in place, otherwise append the binding. -/
def dictSet (l : List (String × ℕ)) (key : String) (v : ℕ) :
    List (String × ℕ) :=
  if l.any (fun p => p.1 == key) then
    l.map (fun p => if p.1 == key then (key, v) else p)
  else l ++ [(key, v)]

/-- `Ensemble.set_particle_property(key, prop)`: raise when
`prop.shape[0] != self.num_ptcls`, otherwise store `np.copy(prop)` — a
freshly allocated array with the same contents — under `key`. -/
def HEnsemble.setParticleProperty (e : HEnsemble) (st : Store) (key : String)
    (prop : ℕ) : Except DimensionMismatch (HEnsemble × Store) :=
  if (st.read prop).shape.headD 0 ≠ e.num_ptcls then
    Except.error DimensionMismatch.mk
  else
    let rs := st.alloc (st.read prop)
    Except.ok
      ({ e with
          particle_properties := dictSet e.particle_properties key rs.1 },
        rs.2)

lemma lookup_map_overwrite (key : String) (v : ℕ) :
    ∀ (l : List (String × ℕ)),
      l.any (fun p => p.1 == key) = true →
      List.lookup key
        (l.map (fun p => if p.1 == key then (key, v) else p)) = some v
  | [], h => by simp at h
  | (pk, pv) :: l, h => by
      rcases eq_or_ne pk key with hp | hp
      · simp [List.lookup_cons, hp]
      · have hb : (pk == key) = false := beq_eq_false_iff_ne.mpr hp
        have hkb : (key == pk) = false :=
          beq_eq_false_iff_ne.mpr (Ne.symm hp)
        have hl : l.any (fun q => q.1 == key) = true := by
          simpa [List.any_cons, hb] using h
        simp only [List.map_cons, hb, Bool.false_eq_true, if_false,
          List.lookup_cons, hkb]
        exact lookup_map_overwrite key v l hl

lemma lookup_append_self (key : String) (v : ℕ) :
    ∀ (l : List (String × ℕ)),
      l.any (fun p => p.1 == key) = false →
      List.lookup key (l ++ [(key, v)]) = some v
  | [], _ => by simp [List.lookup]
  | (pk, pv) :: l, h => by
      have h' : (pk == key) = false ∧
          l.any (fun q => q.1 == key) = false := by
        simpa [List.any_cons] using h
      have hkb : (key == pk) = false :=
        beq_eq_false_iff_ne.mpr (Ne.symm (beq_eq_false_iff_ne.mp h'.1))
      simp only [List.cons_append, List.lookup_cons, hkb]
      exact lookup_append_self key v l h'.2

/-- The stored reference after a successful `set_particle_property`. -/
lemma lookup_dictSet (l : List (String × ℕ)) (key : String) (v : ℕ) :
    List.lookup key (dictSet l key v) = some v := by
  rw [dictSet]
  by_cases h : l.any (fun p => p.1 == key) = true
  · rw [if_pos h]
    exact lookup_map_overwrite key v l h
  · rw [if_neg h]
    exact lookup_append_self key v l (Bool.eq_false_iff.mpr h)

/-- **C9**: `set_particle_property(key, prop)` fails with the dimension
mismatch exactly when `prop`'s leading length differs from the particle
count (the property dictionary is untouched in that case, since the call
returns before assigning); otherwise it binds `key` to a freshly allocated
copy of `prop`, so mutating the caller's array afterwards leaves the stored
property unchanged. -/
theorem setParticleProperty_spec
    (e : HEnsemble) (st : Store) (key : String) (prop : ℕ) :
    ((st.read prop).shape.headD 0 ≠ e.num_ptcls ↔
      e.setParticleProperty st key prop = Except.error DimensionMismatch.mk) ∧
    ((st.read prop).shape.headD 0 = e.num_ptcls →
      e.setParticleProperty st key prop =
        Except.ok
          ({ e with
              particle_properties :=
                dictSet e.particle_properties key st.arrays.length },
            ⟨st.arrays ++ [st.read prop]⟩) ∧
      List.lookup key (dictSet e.particle_properties key st.arrays.length)
        = some st.arrays.length ∧
      Store.read ⟨st.arrays ++ [st.read prop]⟩ st.arrays.length
        = st.read prop ∧
      ∀ b : NpArray, prop < st.arrays.length →
        Store.read
          (Store.write ⟨st.arrays ++ [st.read prop]⟩ prop b)
          st.arrays.length = st.read prop) := by
  have hread : Store.read ⟨st.arrays ++ [st.read prop]⟩ st.arrays.length
      = st.read prop := by
    simp [Store.read, List.getD_eq_getElem?_getD, List.getElem?_append]
  constructor
  · constructor
    · intro h
      unfold HEnsemble.setParticleProperty
      rw [if_pos h]
    · intro h
      by_contra hne
      unfold HEnsemble.setParticleProperty at h
      rw [if_neg
        (show ¬ (st.read prop).shape.headD 0 ≠ e.num_ptcls from
          fun hc => hc hne)] at h
      exact Except.noConfusion h
  · intro h
    refine ⟨?_, lookup_dictSet _ _ _, hread, fun b hb => ?_⟩
    · unfold HEnsemble.setParticleProperty
      rw [if_neg
        (show ¬ (st.read prop).shape.headD 0 ≠ e.num_ptcls from
          fun hc => hc h)]
      rfl
    · have hne : prop ≠ st.arrays.length := Nat.ne_of_lt hb
      simp only [Store.read, Store.write, List.getD_eq_getElem?_getD] at hread ⊢
      rw [List.getElem?_set_ne hne]
      exact hread

/-- Witness for `setParticleProperty_spec`: a two-particle ensemble, a
caller array of shape `(2,)` behind reference `0`; after the call the
stored copy survives an overwrite of the caller's array. -/
theorem setParticleProperty_spec_witness :
    HEnsemble.setParticleProperty ⟨2, []⟩ ⟨[⟨[2], [7, 8]⟩]⟩ "charge" 0 =
      Except.ok
        ({ num_ptcls := 2, particle_properties := [("charge", 1)] },
          ⟨[⟨[2], [7, 8]⟩, ⟨[2], [7, 8]⟩]⟩) ∧
    Store.read
      (Store.write ⟨[⟨[2], [7, 8]⟩, ⟨[2], [7, 8]⟩]⟩ 0 ⟨[2], [0, 0]⟩) 1
      = ⟨[2], [7, 8]⟩ := by
  have h := (setParticleProperty_spec ⟨2, []⟩ ⟨[⟨[2], [7, 8]⟩]⟩ "charge" 0).2
    (by norm_num [Store.read])
  refine ⟨?_, ?_⟩
  · have h1 := h.1
    rw [h1]
    norm_num [dictSet, Store.read]
  · have h4 := h.2.2.2 ⟨[2], [0, 0]⟩ (by norm_num)
    simpa [Store.read] using h4

/-! ### The injection driver `produce_ptcls` (claim C4)

Calls into sources are recorded in an event trace, so that "queried exactly
once", "resized exactly once" and the insertion ranges are all visible. -/

/-- One observable call made during `produce_ptcls`: the `k`-th query of
source `src` returning `n`, the ensemble resize, or a
`produce_ptcls(dt, start, stop, ensemble)` call into source `src`. -/
inductive Event where
  | query (src k n : ℕ)
  | resizeEv (new_size : ℕ)
  | produceEv (src start stop : ℕ)
deriving DecidableEq

/-- A particle source: `counts dt k` is what the `k`-th call (0-based) of
`num_ptcls_produced(dt)` returns — a stochastic source may return different
values on consecutive calls — and `produce` is its `produce_ptcls`. -/
structure Src where
  counts : ℚ → ℕ → ℕ
  produce : ℚ → ℕ → ℕ → Ensemble → Ensemble

/-- Whether an event is a query of source `i`. -/
def isQuery (i : ℕ) : Event → Bool
  | Event.query j _ _ => j == i
  | _ => false

/-- How often source `i`'s `num_ptcls_produced` was called so far. -/
def queriesTo (i : ℕ) (log : List Event) : ℕ :=
  (log.filter (isQuery i)).length

/-- The first loop of `produce_ptcls`: query every source once in list
order, returning the per-source counts, the running total, and the grown
log. -/
def queryPass (dt : ℚ) :
    List Src → ℕ → List Event → List ℕ × ℕ × List Event
  | [], _, log => ([], 0, log)
  | s :: rest, i, log =>
      let k := queriesTo i log
      let n := s.counts dt k
      let r := queryPass dt rest (i + 1) (log ++ [Event.query i k n])
      (n :: r.1, n + r.2.1, r.2.2)

/-- The second loop of `produce_ptcls`: hand each source its cached count's
slice `[cursor, cursor + n)` and advance the cursor. -/
def producePass (dt : ℚ) :
    List Src → List ℕ → ℕ → ℕ → Ensemble → List Event →
      Ensemble × List Event
  | s :: rest, n :: ns, i, cursor, e, log =>
      producePass dt rest ns (i + 1) (cursor + n)
        (s.produce dt cursor (cursor + n) e)
        (log ++ [Event.produceEv i cursor (cursor + n)])
  | _, _, _, _, e, log => (e, log)

/-- `produce_ptcls(dt, ensemble, sources)`: query all counts, resize once
to `num_ptcls + total`, then let each source fill its slice. -/
def producePtcls (dt : ℚ) (ensemble : Ensemble) (sources : List Src) :
    Ensemble × List Event :=
  let q := queryPass dt sources 0 []
  let start := ensemble.numPtcls
  producePass dt sources q.1 0 start (ensemble.resize (start + q.2.1))
    (q.2.2 ++ [Event.resizeEv (start + q.2.1)])

/-- The counts obtained by the first pass: each source's first answer. -/
def firstCounts (dt : ℚ) (sources : List Src) : List ℕ :=
  sources.map fun s => s.counts dt 0

/-- The query events of the first pass: one per source, in list order, each
a first (`k = 0`) call. -/
def queryEvents (dt : ℚ) : ℕ → List Src → List Event
  | _, [] => []
  | i, s :: rest =>
      Event.query i 0 (s.counts dt 0) :: queryEvents dt (i + 1) rest

/-- The produce events of the second pass: contiguous slices, in list
order. -/
def produceEvents : ℕ → ℕ → List ℕ → List Event
  | _, _, [] => []
  | i, cursor, n :: ns =>
      Event.produceEv i cursor (cursor + n) ::
        produceEvents (i + 1) (cursor + n) ns

/-- The `[start, stop)` ranges of the produce events of a trace. -/
def produceRanges (log : List Event) : List (ℕ × ℕ) :=
  log.filterMap fun ev =>
    match ev with
    | Event.produceEv _ a b => some (a, b)
    | _ => none

/-- Whether an event is a resize. -/
def isResize : Event → Bool
  | Event.resizeEv _ => true
  | _ => false

lemma queriesTo_eq_zero (i : ℕ) (log : List Event)
    (h : ∀ j k n, Event.query j k n ∈ log → j < i) :
    queriesTo i log = 0 := by
  rw [queriesTo, List.length_eq_zero, List.filter_eq_nil_iff]
  intro a ha
  cases a with
  | query j k n =>
      have := h j k n ha
      simp only [isQuery, beq_iff_eq]
      omega
  | resizeEv m => simp [isQuery]
  | produceEv j a b => simp [isQuery]

lemma queryPass_spec (dt : ℚ) :
    ∀ (sources : List Src) (i : ℕ) (log : List Event),
      (∀ j k n, Event.query j k n ∈ log → j < i) →
      queryPass dt sources i log =
        (firstCounts dt sources, (firstCounts dt sources).sum,
          log ++ queryEvents dt i sources)
  | [], i, log, h => by simp [queryPass, firstCounts, queryEvents]
  | s :: rest, i, log, h => by
      have hk : queriesTo i log = 0 := queriesTo_eq_zero i log h
      have h2 : ∀ j k n,
          Event.query j k n ∈ log ++ [Event.query i 0 (s.counts dt 0)] →
          j < i + 1 := by
        intro j k n hmem
        rcases List.mem_append.mp hmem with hm | hm
        · exact Nat.lt_succ_of_lt (h j k n hm)
        · simp only [List.mem_singleton, Event.query.injEq] at hm
          omega
      simp only [queryPass, hk]
      rw [queryPass_spec dt rest (i + 1) _ h2]
      simp [firstCounts, queryEvents, List.append_assoc]

lemma producePass_trace (dt : ℚ) :
    ∀ (sources : List Src) (ns : List ℕ) (i cursor : ℕ) (e : Ensemble)
      (log : List Event),
      sources.length = ns.length →
      (producePass dt sources ns i cursor e log).2 =
        log ++ produceEvents i cursor ns
  | [], [], i, cursor, e, log, _ => by
      simp [producePass, produceEvents]
  | [], n :: ns, i, cursor, e, log, h => by simp at h
  | s :: rest, [], i, cursor, e, log, h => by simp at h
  | s :: rest, n :: ns, i, cursor, e, log, h => by
      simp only [producePass]
      rw [producePass_trace dt rest ns (i + 1) (cursor + n) _ _
        (by simpa using h)]
      simp [produceEvents, List.append_assoc]

lemma produceRanges_queryEvents (dt : ℚ) :
    ∀ (i : ℕ) (sources : List Src),
      produceRanges (queryEvents dt i sources) = []
  | _, [] => rfl
  | i, s :: rest => produceRanges_queryEvents dt (i + 1) rest

lemma produceRanges_lb :
    ∀ (ns : List ℕ) (i cursor : ℕ) (r : ℕ × ℕ),
      r ∈ produceRanges (produceEvents i cursor ns) → cursor ≤ r.1
  | [], i, cursor, r, hr => by simp [produceEvents, produceRanges] at hr
  | n :: ns, i, cursor, r, hr => by
      simp only [produceEvents, produceRanges, List.filterMap_cons] at hr
      rcases List.mem_cons.mp hr with hm | hm
      · rw [hm]
      · have := produceRanges_lb ns (i + 1) (cursor + n) r hm
        omega

lemma produceEvents_pairwise :
    ∀ (ns : List ℕ) (i cursor : ℕ),
      List.Pairwise (fun r1 r2 : ℕ × ℕ => r1.2 ≤ r2.1)
        (produceRanges (produceEvents i cursor ns))
  | [], i, cursor => by simp [produceEvents, produceRanges]
  | n :: ns, i, cursor => by
      simp only [produceEvents, produceRanges, List.filterMap_cons]
      refine List.Pairwise.cons ?_ (produceEvents_pairwise ns (i + 1) (cursor + n))
      intro r hr
      exact produceRanges_lb ns (i + 1) (cursor + n) r hr

lemma filter_resize_queryEvents (dt : ℚ) :
    ∀ (i : ℕ) (sources : List Src),
      (queryEvents dt i sources).filter isResize = []
  | _, [] => rfl
  | i, s :: rest => filter_resize_queryEvents dt (i + 1) rest

lemma filter_resize_produceEvents :
    ∀ (ns : List ℕ) (i cursor : ℕ),
      (produceEvents i cursor ns).filter isResize = []
  | [], _, _ => rfl
  | n :: ns, i, cursor => filter_resize_produceEvents ns (i + 1) (cursor + n)

lemma produceRanges_append (a b : List Event) :
    produceRanges (a ++ b) = produceRanges a ++ produceRanges b := by
  simp [produceRanges, List.filterMap_append]

/-- Write the marker `val` into rows `[start, stop)`. -/
def fillRange (start stop : ℕ) (val : Vec3) (rows : List Vec3) : List Vec3 :=
  rows.mapIdx fun i r => if start ≤ i ∧ i < stop then val else r

/-- Demo source: claims 3 particles on its first query (99 on any later
query) and fills its slice with `(1,1,1)`. -/
def srcDemoA : Src :=
  ⟨fun _ k => if k = 0 then 3 else 99,
    fun _ start stop e => { e with x := fillRange start stop (1, 1, 1) e.x }⟩

/-- Demo source: claims 5 particles on its first query (99 on any later
query) and fills its slice with `(2,2,2)`. -/
def srcDemoB : Src :=
  ⟨fun _ k => if k = 0 then 5 else 99,
    fun _ start stop e => { e with x := fillRange start stop (2, 2, 2) e.x }⟩

/-- **C4**: `produce_ptcls` queries each source's count exactly once, in
source-list order (the trace is exactly one first-call query per source),
resizes the ensemble exactly once, from `old_N` to `old_N + total`, and
then hands the sources contiguous, pairwise-disjoint ranges in list order
starting at `old_N`, whose lengths are exactly the counts cached from the
first pass; concretely, two sources first reporting 3 and 5 insert exactly
8 particles, the first source filling the first 3 new slots and the second
the next 5. -/
theorem producePtcls_trace_spec (dt : ℚ) (ensemble : Ensemble)
    (sources : List Src) :
    (producePtcls dt ensemble sources).2 =
      queryEvents dt 0 sources
        ++ [Event.resizeEv (ensemble.numPtcls + (firstCounts dt sources).sum)]
        ++ produceEvents 0 ensemble.numPtcls (firstCounts dt sources) ∧
    (producePtcls dt ensemble sources).2.filter isResize =
      [Event.resizeEv (ensemble.numPtcls + (firstCounts dt sources).sum)] ∧
    List.Pairwise (fun r1 r2 : ℕ × ℕ => r1.2 ≤ r2.1)
      (produceRanges (producePtcls dt ensemble sources).2) ∧
    (producePtcls 1 ⟨[(9,9,9), (8,8,8)], [(0,0,0), (0,0,0)], [], []⟩
        [srcDemoA, srcDemoB]).1.x =
      [(9,9,9), (8,8,8), (1,1,1), (1,1,1), (1,1,1),
        (2,2,2), (2,2,2), (2,2,2), (2,2,2), (2,2,2)] := by
  have htrace :
      (producePtcls dt ensemble sources).2 =
        queryEvents dt 0 sources
          ++ [Event.resizeEv
              (ensemble.numPtcls + (firstCounts dt sources).sum)]
          ++ produceEvents 0 ensemble.numPtcls (firstCounts dt sources) := by
    unfold producePtcls
    rw [queryPass_spec dt sources 0 [] (by intro j k n h; simp at h)]
    rw [producePass_trace dt sources (firstCounts dt sources) 0
      ensemble.numPtcls _ _ (by simp [firstCounts])]
    simp [List.append_assoc]
  refine ⟨htrace, ?_, ?_, ?_⟩
  · rw [htrace]
    simp [List.filter_append, filter_resize_queryEvents,
      filter_resize_produceEvents, isResize]
  · rw [htrace, produceRanges_append, produceRanges_append,
      produceRanges_queryEvents]
    have hres : produceRanges [Event.resizeEv
        (ensemble.numPtcls + (firstCounts dt sources).sum)] = [] := rfl
    rw [hres]
    simpa using produceEvents_pairwise (firstCounts dt sources) 0
      ensemble.numPtcls
  · rfl
